import Mathlib

set_option maxHeartbeats 1000000

/-!
A verification development for the rhodopsin experiment-control library.

The development shallowly embeds the control loop of `Experiment.train`
(`rhodopsin/experiment.py`), the signal handler, the startup load phase of
`Experiment.__init__`, the Keras integration (`rhodopsin/keras_experiment.py`)
and the parameter store (`rhodopsin/params.py`, pinned by
`rhodopsin/tests/test_params.py`).  Side effects (menu display, model
save/load, training and testing callbacks) are recorded as events in a trace;
the asynchronous SIGINT handler is modelled as an action that may run at any
instruction boundary of the loop, driven by an explicit interrupt schedule.
-/

/-- Observable events of the embedded program: menu display, checkpoint
(`_save_model`), training/testing callbacks, the status-counter update, the
signal handler's acknowledgment print, the load-decision screen, `_load_model`,
and the Keras collaborator callbacks. -/
inductive Ev where
  | menu
  | save
  | trainIter
  | testIter
  | incrIter
  | ack
  | loadMenu
  | load
  | updateEpoch
  | updateMenu
  | trainStep
deriving DecidableEq

/-- Modelled from the spec: the parameter store classes (`HyperParams` in
`rhodopsin/params.py`) are not under `src/`; only their tests
(`src/rhodopsin/tests/test_params.py`) are.  A parameter store maps names to
values and tracks a dirty set.  Behaviour follows spec section 4.1 together
with the pinning tests: `add` marks the new name dirty, `add_if_not_set` is a
no-op on an existing name, and `update` with a value equal to the stored one
does not mark the name dirty (test `test_get_changed`, lines 115-123). -/
structure Params where
  entries : List (String × Int)
  changed : List String
deriving DecidableEq

def Params.empty : Params := ⟨[], []⟩

def Params.mem_name (p : Params) (name : String) : Bool :=
  p.entries.any (fun e => e.1 == name)

def Params.get_value (p : Params) (name : String) : Except String Int :=
  match p.entries.find? (fun e => e.1 == name) with
  | some e => Except.ok e.2
  | none => Except.error "NameError"

/-- Insert a name into the dirty set, without duplicating it. -/
def markChanged (changed : List String) (name : String) : List String :=
  if name ∈ changed then changed else changed ++ [name]

def Params.add (p : Params) (name : String) (value : Int) : Except String Params :=
  if p.mem_name name then Except.error "NameError"
  else Except.ok { entries := p.entries ++ [(name, value)],
                   changed := markChanged p.changed name }

def Params.add_if_not_set (p : Params) (name : String) (value : Int) : Params :=
  if p.mem_name name then p
  else { entries := p.entries ++ [(name, value)],
         changed := markChanged p.changed name }

def Params.update (p : Params) (name : String) (value : Int) : Except String Params :=
  match p.entries.find? (fun e => e.1 == name) with
  | none => Except.error "NameError"
  | some e =>
      Except.ok { entries := p.entries.map
                    (fun e2 => if e2.1 == name then (e2.1, value) else e2),
                  changed := if e.2 == value then p.changed
                             else markChanged p.changed name }

def Params.get_all (p : Params) : List String := p.entries.map (fun e => e.1)

/-- `get_changed` returns the dirty names and clears every dirty flag:
the pair holds the returned list and the store after the call. -/
def Params.get_changed (p : Params) : List String × Params :=
  (p.changed, { p with changed := [] })

/-- Total wrapper around `Params.add`, used for concrete computations. -/
def Params.addD (p : Params) (name : String) (value : Int) : Params :=
  match p.add name value with
  | Except.ok q => q
  | Except.error _ => p

/-- Total wrapper around `Params.update`, used for concrete computations. -/
def Params.updateD (p : Params) (name : String) (value : Int) : Params :=
  match p.update name value with
  | Except.ok q => q
  | Except.error _ => p

/-- One status parameter: current value plus bounded history. -/
structure StatusEntry where
  name : String
  value : Int
  history : List Int
deriving DecidableEq

/-- Modelled from the spec: the `Status` class of `rhodopsin/params.py` is not
under `src/`; only its tests are.  `Status` is the parameter-store variant
whose entries additionally carry a history bounded by the class constant
`_MAX_HISTORY_LEN` (here the field `maxHistoryLen`, kept abstract because its
concrete value is not in `src/`).  Behaviour follows spec sections 3 and 4.1
together with the pinning tests: `add` seeds the history with the initial
value (test `test_get_history` observes `[0, 1, 2, 3]` after `add 0` and
three updates) and `update` appends the new value, evicting the oldest
entries beyond the bound (test `test_update_length_limit`). -/
structure Status where
  maxHistoryLen : Nat
  entries : List StatusEntry
  changed : List String
deriving DecidableEq

def Status.empty (H : Nat) : Status := ⟨H, [], []⟩

/-- The last `n` elements of a list. -/
def lastN (n : Nat) (xs : List Int) : List Int := xs.drop (xs.length - n)

def Status.mem_name (s : Status) (name : String) : Bool :=
  s.entries.any (fun e => e.name == name)

def Status.get_value (s : Status) (name : String) : Except String Int :=
  match s.entries.find? (fun e => e.name == name) with
  | some e => Except.ok e.value
  | none => Except.error "NameError"

def Status.get_history (s : Status) (name : String) : Except String (List Int) :=
  match s.entries.find? (fun e => e.name == name) with
  | some e => Except.ok e.history
  | none => Except.error "NameError"

def Status.add (s : Status) (name : String) (value : Int) : Except String Status :=
  if s.mem_name name then Except.error "NameError"
  else Except.ok { s with entries := s.entries ++ [⟨name, value, [value]⟩],
                          changed := markChanged s.changed name }

def Status.add_if_not_set (s : Status) (name : String) (value : Int) : Status :=
  if s.mem_name name then s
  else { s with entries := s.entries ++ [⟨name, value, [value]⟩],
                changed := markChanged s.changed name }

def Status.update (s : Status) (name : String) (value : Int) : Except String Status :=
  match s.entries.find? (fun e => e.name == name) with
  | none => Except.error "NameError"
  | some e =>
      Except.ok { s with
        entries := s.entries.map (fun e2 =>
          if e2.name == name then
            ⟨e2.name, value, lastN s.maxHistoryLen (e2.history ++ [value])⟩
          else e2),
        changed := if e.value == value then s.changed
                   else markChanged s.changed name }

def Status.get_changed (s : Status) : List String × Status :=
  (s.changed, { s with changed := [] })

/-- Total wrapper around `Status.add`, used for concrete computations. -/
def Status.addD (s : Status) (name : String) (value : Int) : Status :=
  match s.add name value with
  | Except.ok q => q
  | Except.error _ => s

/-- Total wrapper around `Status.update`, used for concrete computations. -/
def Status.updateD (s : Status) (name : String) (value : Int) : Status :=
  match s.update name value with
  | Except.ok q => q
  | Except.error _ => s

/-- Well-formedness of a status store: the history bound is positive, every
history respects the bound, and the most recent history entry is the current
value (`history[-1]`). -/
def Status.WF (s : Status) : Prop :=
  1 ≤ s.maxHistoryLen ∧
  ∀ e ∈ s.entries, e.history.length ≤ s.maxHistoryLen ∧
    e.history.getLast? = some e.value

instance statusWFDecidable (s : Status) : Decidable s.WF :=
  inferInstanceAs (Decidable (1 ≤ s.maxHistoryLen ∧
    ∀ e ∈ s.entries, e.history.length ≤ s.maxHistoryLen ∧
      e.history.getLast? = some e.value))

/-- Program points of `Experiment.train` (`experiment.py`, lines 126-147),
one per atomic source action.  `loopGuard` is the `for` guard, `check` the
`if self.__enter_menu` safe point at the top of an iteration, `clearFlag` the
assignment `self.__enter_menu = False` performed after the menu returns,
`saveAfterMenu` the `_save_model` call after a menu exit, `runTrain` the
training callback, `incr` the status-counter update, `runTest` the testing
callback, `saveAfterTest` the end-of-pass `_save_model` call.  `halted`
absorbs a propagated parameter-store error. -/
inductive PC where
  | loopGuard
  | check
  | clearFlag
  | saveAfterMenu
  | runTrain
  | incr
  | runTest
  | saveAfterTest
  | halted
deriving DecidableEq

/-- The state of a running `Experiment`: the `__enter_menu` flag, the
`__testing_interval`, the inner `for` index, the program point, and the two
parameter stores. -/
structure ExpState where
  enterMenu : Bool
  testingInterval : Nat
  i : Nat
  pc : PC
  status : Status
  params : Params
deriving DecidableEq

/-- `Experiment.__handle_signal` (`experiment.py`, lines 67-80): if the flag
is already set, return; otherwise print an acknowledgment and set the flag. -/
def handleSignal (s : ExpState) : ExpState × List Ev :=
  if s.enterMenu then (s, [])
  else ({ s with enterMenu := true }, [Ev.ack])

/-- `KerasExperiment._handle_signal` (`keras_experiment.py`, lines 66-80):
textually the same logic as `Experiment.__handle_signal`. -/
def kerasHandleSignal (s : ExpState) : ExpState × List Ev :=
  if s.enterMenu then (s, [])
  else ({ s with enterMenu := true }, [Ev.ack])

/-- One atomic action of `Experiment.train`, at the current program point. -/
def stepAction (s : ExpState) : ExpState × List Ev :=
  match s.pc with
  | PC.loopGuard =>
      if s.i < s.testingInterval then ({ s with pc := PC.check }, [])
      else ({ s with pc := PC.runTest }, [])
  | PC.check =>
      if s.enterMenu then ({ s with pc := PC.clearFlag }, [Ev.menu])
      else ({ s with pc := PC.runTrain }, [])
  | PC.clearFlag => ({ s with enterMenu := false, pc := PC.saveAfterMenu }, [])
  | PC.saveAfterMenu => ({ s with pc := PC.runTrain }, [Ev.save])
  | PC.runTrain => ({ s with pc := PC.incr }, [Ev.trainIter])
  | PC.incr =>
      match s.status.get_value "iterations" with
      | Except.error _ => ({ s with pc := PC.halted }, [])
      | Except.ok n =>
          match s.status.update "iterations" (n + 1) with
          | Except.error _ => ({ s with pc := PC.halted }, [])
          | Except.ok st =>
              ({ s with status := st, i := s.i + 1, pc := PC.loopGuard },
               [Ev.incrIter])
  | PC.runTest => ({ s with pc := PC.saveAfterTest }, [Ev.testIter])
  | PC.saveAfterTest => ({ s with i := 0, pc := PC.loopGuard }, [Ev.save])
  | PC.halted => (s, [])

/-- One step of the loop at an instruction boundary: if `intr` is true the
asynchronous SIGINT handler runs first, then the atomic action at the current
program point executes. -/
def step (s : ExpState) (intr : Bool) : ExpState × List Ev :=
  if intr then
    ((stepAction (handleSignal s).1).1,
     (handleSignal s).2 ++ (stepAction (handleSignal s).1).2)
  else stepAction s

/-- Run the loop under an interrupt schedule, one scheduled interrupt decision
per instruction boundary, collecting the event trace. -/
def run (s : ExpState) : List Bool → ExpState × List Ev
  | [] => (s, [])
  | b :: bs =>
      ((run (step s b).1 bs).1, (step s b).2 ++ (run (step s b).1 bs).2)

/-- The state in which `Experiment.train` begins on a freshly constructed
`Experiment`: flag as given (false unless an interrupt already arrived),
inner index 0, at the `for` guard, with the default status parameter
`"iterations" = 0` installed by `__init__` via `add_if_not_set`. -/
def initState (N H : Nat) (flag : Bool) : ExpState :=
  ⟨flag, N, 0, PC.loopGuard, (Status.empty H).add_if_not_set "iterations" 0,
   Params.empty⟩

/-- A small concrete status store used for witness computations: the store of
a freshly constructed `Experiment` (history bound 3 for concreteness). -/
def wStatus : Status := (Status.empty 3).add_if_not_set "iterations" 0

/-- Default `Experiment._load_model` (`experiment.py`, lines 111-116): always
raises. -/
def default_load_model (saveFile : String) : Except String Unit :=
  Except.error "_load_model() must be implemented by subclass."

/-- Default `Experiment._save_model` (`experiment.py`, lines 104-109): a
no-op. -/
def default_save_model (saveFile : String) : Except String Unit :=
  Except.ok ()

/-- The startup load phase at the end of `Experiment.__init__`
(`experiment.py`, lines 56-65): if the model-exists predicate holds, show the
load-decision screen, and if `should_load()` then holds invoke `_load_model`.
`modelExists` and `shouldLoad` abstract the two external predicates; the
result records the outcome of the `_load_model` call and the emitted events. -/
def initLoadPhase (modelExists shouldLoad : Bool)
    (loadModel : String → Except String Unit) (saveFile : String) :
    Except String Unit × List Ev :=
  if modelExists then
    if shouldLoad then (loadModel saveFile, [Ev.loadMenu, Ev.load])
    else (Except.ok (), [Ev.loadMenu])
  else (Except.ok (), [])

/-- `KerasExperiment.__on_epoch_end` (`keras_experiment.py`, lines 26-45):
run `_update_after_epoch`; if the flag is clear, return; otherwise show the
main menu, clear the flag, run `_update_after_menu` and checkpoint. -/
def kerasOnEpochEnd (s : ExpState) : ExpState × List Ev :=
  if s.enterMenu then
    ({ s with enterMenu := false },
     [Ev.updateEpoch, Ev.menu, Ev.updateMenu, Ev.save])
  else (s, [Ev.updateEpoch])

/-- `KerasExperiment.train` (`keras_experiment.py`, lines 96-102): the trace
of the single call to `_run_training_step`. -/
def kerasTrain : List Ev := [Ev.trainStep]

/-- `KerasExperiment._run_testing_step` (`keras_experiment.py`, lines 81-86):
does nothing. -/
def kerasRunTestingStep : List Ev := []

/-! ### Helper lemmas about the parameter store -/

theorem find?_map_set (n : String) (v : Int) (H : Nat) :
    ∀ (l : List StatusEntry) (e : StatusEntry),
      l.find? (fun e2 => e2.name == n) = some e →
      (l.map (fun e2 =>
          if e2.name == n then
            (⟨e2.name, v, lastN H (e2.history ++ [v])⟩ : StatusEntry)
          else e2)).find? (fun e2 => e2.name == n)
        = some ⟨e.name, v, lastN H (e.history ++ [v])⟩ := by
  intro l
  induction l with
  | nil => intro e hf; simp [List.find?] at hf
  | cons hd tl ih =>
      intro e hf
      cases hh : hd.name == n with
      | true =>
          simp only [List.find?_cons, hh] at hf
          obtain rfl : hd = e := by
            cases hf
            rfl
          simp only [List.map_cons, if_pos hh, List.find?_cons]
          simp [hh]
      | false =>
          simp only [List.find?_cons, hh] at hf
          rw [List.map_cons, if_neg (by simp [hh]), List.find?_cons, hh]
          exact ih e hf

theorem Status.update_get (st : Status) (n : String) (m v : Int)
    (h : st.get_value n = Except.ok m) :
    ∃ st2 : Status, st.update n v = Except.ok st2 ∧
      st2.get_value n = Except.ok v := by
  rcases hf : st.entries.find? (fun e => e.name == n) with _ | e
  · unfold Status.get_value at h
    rw [hf] at h
    cases h
  · have hupd : st.update n v = Except.ok
        { st with
          entries := st.entries.map (fun e2 =>
            if e2.name == n then
              ⟨e2.name, v, lastN st.maxHistoryLen (e2.history ++ [v])⟩
            else e2),
          changed := if e.value == v then st.changed
                     else markChanged st.changed n } := by
      unfold Status.update
      rw [hf]
    refine ⟨_, hupd, ?_⟩
    simp only [Status.get_value]
    rw [find?_map_set n v st.maxHistoryLen st.entries e hf]

/-! ### Helper lemmas about the control loop -/

theorem stepAction_menu (s : ExpState) (h : Ev.menu ∈ (stepAction s).2) :
    s.pc = PC.check ∧ s.enterMenu = true ∧
    stepAction s = ({ s with pc := PC.clearFlag }, [Ev.menu]) := by
  cases hpc : s.pc
  case loopGuard =>
      by_cases hc : s.i < s.testingInterval <;> simp [stepAction, hpc, hc] at h
  case check =>
      by_cases hc : s.enterMenu
      · exact ⟨rfl, hc, by simp [stepAction, hpc, hc]⟩
      · simp [stepAction, hpc, hc] at h
  case clearFlag => simp [stepAction, hpc] at h
  case saveAfterMenu => simp [stepAction, hpc] at h
  case runTrain => simp [stepAction, hpc] at h
  case incr =>
      rcases hg : s.status.get_value "iterations" with msg | n
      · simp [stepAction, hpc, hg] at h
      · rcases hu : s.status.update "iterations" (n + 1) with msg | st2 <;>
          simp [stepAction, hpc, hg, hu] at h
  case runTest => simp [stepAction, hpc] at h
  case saveAfterTest => simp [stepAction, hpc] at h
  case halted => simp [stepAction, hpc] at h

theorem step_menu (flag : Bool) (N i : Nat) (pc : PC) (st : Status)
    (pr : Params) (intr : Bool)
    (h : Ev.menu ∈ (step ⟨flag, N, i, pc, st, pr⟩ intr).2) :
    pc = PC.check ∧
    step ⟨flag, N, i, pc, st, pr⟩ intr
      = (⟨true, N, i, PC.clearFlag, st, pr⟩,
         (if intr && !flag then [Ev.ack] else []) ++ [Ev.menu]) := by
  cases intr
  · rw [show step ⟨flag, N, i, pc, st, pr⟩ false
        = stepAction ⟨flag, N, i, pc, st, pr⟩ from rfl] at h ⊢
    obtain ⟨hpc, hflag, heq⟩ := stepAction_menu _ h
    subst hflag
    exact ⟨hpc, by simp [heq]⟩
  · cases flag
    · have hhs : handleSignal ⟨false, N, i, pc, st, pr⟩
          = (⟨true, N, i, pc, st, pr⟩, [Ev.ack]) := by
        simp [handleSignal]
      simp only [step, hhs] at h ⊢
      simp at h
      obtain ⟨hpc, hflag, heq⟩ := stepAction_menu _ h
      exact ⟨hpc, by simp [heq]⟩
    · have hhs : handleSignal ⟨true, N, i, pc, st, pr⟩
          = (⟨true, N, i, pc, st, pr⟩, []) := by
        simp [handleSignal]
      simp only [step, hhs] at h ⊢
      simp only [List.nil_append] at h
      obtain ⟨hpc, hflag, heq⟩ := stepAction_menu _ h
      exact ⟨hpc, by simp [heq]⟩

theorem run_append (s : ExpState) (l1 l2 : List Bool) :
    run s (l1 ++ l2)
      = ((run (run s l1).1 l2).1, (run s l1).2 ++ (run (run s l1).1 l2).2) := by
  induction l1 generalizing s with
  | nil => simp [run]
  | cons b bs ih => simp [run, ih]

theorem stepAction_flag_false (s : ExpState) (hf : s.enterMenu = false) :
    (stepAction s).1.enterMenu = false ∧ Ev.menu ∉ (stepAction s).2 := by
  cases hpc : s.pc
  case loopGuard =>
      by_cases hc : s.i < s.testingInterval <;> simp [stepAction, hpc, hc, hf]
  case check => simp [stepAction, hpc, hf]
  case clearFlag => simp [stepAction, hpc]
  case saveAfterMenu => simp [stepAction, hpc, hf]
  case runTrain => simp [stepAction, hpc, hf]
  case incr =>
      rcases hg : s.status.get_value "iterations" with msg | n
      · simp [stepAction, hpc, hg, hf]
      · rcases hu : s.status.update "iterations" (n + 1) with msg | st2 <;>
          simp [stepAction, hpc, hg, hu, hf]
  case runTest => simp [stepAction, hpc, hf]
  case saveAfterTest => simp [stepAction, hpc, hf]
  case halted => simp [stepAction, hpc, hf]

theorem run_no_interrupt_no_menu (sched : List Bool) :
    ∀ s : ExpState, s.enterMenu = false → (∀ b ∈ sched, b = false) →
      Ev.menu ∉ (run s sched).2 ∧ (run s sched).1.enterMenu = false := by
  induction sched with
  | nil => intro s hf _; simpa [run] using hf
  | cons b bs ih =>
      intro s hf hb
      obtain rfl : b = false := hb b (by simp)
      have h1 := stepAction_flag_false s hf
      have h2 := ih (step s false).1 h1.1 (fun b2 hb2 => hb b2 (by simp [hb2]))
      constructor
      · simp only [run, List.mem_append]
        rintro (h | h)
        · exact h1.2 h
        · exact h2.1 h
      · simpa only [run] using h2.2

theorem stepAction_events (s : ExpState) :
    ∀ e ∈ (stepAction s).2,
      e = Ev.menu ∨ e = Ev.save ∨ e = Ev.trainIter ∨ e = Ev.testIter ∨
        e = Ev.incrIter := by
  cases hpc : s.pc
  case loopGuard =>
      by_cases hc : s.i < s.testingInterval <;> simp [stepAction, hpc, hc]
  case check => by_cases hc : s.enterMenu <;> simp [stepAction, hpc, hc]
  case clearFlag => simp [stepAction, hpc]
  case saveAfterMenu => simp [stepAction, hpc]
  case runTrain => simp [stepAction, hpc]
  case incr =>
      rcases hg : s.status.get_value "iterations" with msg | n
      · simp [stepAction, hpc, hg]
      · rcases hu : s.status.update "iterations" (n + 1) with msg | st2 <;>
          simp [stepAction, hpc, hg, hu]
  case runTest => simp [stepAction, hpc]
  case saveAfterTest => simp [stepAction, hpc]
  case halted => simp [stepAction, hpc]

theorem step_no_load (s : ExpState) (b : Bool) : Ev.load ∉ (step s b).2 := by
  cases b
  · intro h
    rcases stepAction_events s Ev.load h with h2 | h2 | h2 | h2 | h2 <;> simp at h2
  · by_cases hf : s.enterMenu
    · intro h
      rw [show step s true
          = ((stepAction (handleSignal s).1).1,
             (handleSignal s).2 ++ (stepAction (handleSignal s).1).2)
          from rfl] at h
      rcases List.mem_append.1 h with h2 | h2
      · simp [handleSignal, hf] at h2
      · rcases stepAction_events _ Ev.load h2 with h3 | h3 | h3 | h3 | h3 <;>
          simp at h3
    · intro h
      rw [show step s true
          = ((stepAction (handleSignal s).1).1,
             (handleSignal s).2 ++ (stepAction (handleSignal s).1).2)
          from rfl] at h
      rcases List.mem_append.1 h with h2 | h2
      · simp [handleSignal, hf] at h2
      · rcases stepAction_events _ Ev.load h2 with h3 | h3 | h3 | h3 | h3 <;>
          simp at h3

theorem run_no_load (sched : List Bool) :
    ∀ s : ExpState, Ev.load ∉ (run s sched).2 := by
  induction sched with
  | nil => intro s; simp [run]
  | cons b bs ih =>
      intro s
      simp only [run, List.mem_append]
      rintro (h | h)
      · exact step_no_load s b h
      · exact ih (step s b).1 h

/-! ### Claims about the control loop and the handlers -/

/-- C1: the interrupt flag set by the signal handler is consulted only at the
safe point — the `if self.__enter_menu` check at the top of a training
iteration: a step can emit the menu event only from program point `check`;
and if the flag is set while a training iteration is in progress (program
point `runTrain`), then under every interrupt schedule no menu event occurs
before the pending training-iteration event, so the iteration runs to
completion before the menu is entered. -/
theorem C1_interrupt_deferred_to_safe_point :
    (∀ (s : ExpState) (intr : Bool),
        Ev.menu ∈ (step s intr).2 → s.pc = PC.check) ∧
    (∀ (s : ExpState) (sched : List Bool),
        s.pc = PC.runTrain → s.enterMenu = true →
        Ev.menu ∉ (run s sched).2.takeWhile (fun e => decide (e ≠ Ev.trainIter))) := by
  constructor
  · intro s intr h
    obtain ⟨flag, N, i, pc, st, pr⟩ := s
    exact (step_menu flag N i pc st pr intr h).1
  · intro s sched hpc hflag
    cases sched with
    | nil => simp [run]
    | cons b bs =>
        have hstep : (step s b).2 = [Ev.trainIter] := by
          cases b
          · simp [step, stepAction, hpc]
          · simp [step, handleSignal, hflag, stepAction, hpc]
        simp only [run, hstep]
        simp [List.takeWhile]

/-- Witness for C1 at a concrete state: the safe-point characterization at a
state emitting the menu event, and the no-menu-before-iteration-completion
property from a mid-iteration state with the flag set. -/
theorem C1_interrupt_deferred_to_safe_point_witness :
    (⟨true, 3, 0, PC.check, wStatus, Params.empty⟩ : ExpState).pc = PC.check ∧
    Ev.menu ∉ (run ⟨true, 3, 0, PC.runTrain, wStatus, Params.empty⟩
        [false, false]).2.takeWhile (fun e => decide (e ≠ Ev.trainIter)) :=
  ⟨C1_interrupt_deferred_to_safe_point.1
      ⟨true, 3, 0, PC.check, wStatus, Params.empty⟩ false (by decide),
   C1_interrupt_deferred_to_safe_point.2
      ⟨true, 3, 0, PC.runTrain, wStatus, Params.empty⟩ [false, false] rfl rfl⟩

/-- C3: every exit from the main menu back to the running loop triggers
exactly one checkpoint before training resumes.  In `Experiment.train`: after
a step emitting the menu event, the next step emits no non-acknowledgment
event and the step after that emits exactly the save event, leaving the loop
about to run the training callback.  In the Keras epoch-end integration: if
the menu is shown, the epoch-end trace is exactly update-after-epoch, menu,
update-after-menu, save — one checkpoint, even when the menu made no edits. -/
theorem C3_checkpoint_on_every_menu_exit :
    (∀ (s : ExpState) (intr b1 b2 : Bool),
        Ev.menu ∈ (step s intr).2 →
        (step (step s intr).1 b1).2.filter (fun e => decide (e ≠ Ev.ack)) = [] ∧
        (step (step (step s intr).1 b1).1 b2).2.filter
            (fun e => decide (e ≠ Ev.ack)) = [Ev.save] ∧
        (step (step (step s intr).1 b1).1 b2).1.pc = PC.runTrain) ∧
    (∀ s : ExpState, Ev.menu ∈ (kerasOnEpochEnd s).2 →
        (kerasOnEpochEnd s).2
          = [Ev.updateEpoch, Ev.menu, Ev.updateMenu, Ev.save]) := by
  constructor
  · intro s intr b1 b2 h
    obtain ⟨flag, N, i, pc, st, pr⟩ := s
    obtain ⟨hpc, heq⟩ := step_menu flag N i pc st pr intr h
    simp only [heq]
    cases b1 <;> cases b2 <;> simp [step, stepAction, handleSignal]
  · intro s h
    by_cases hf : s.enterMenu
    · simp [kerasOnEpochEnd, hf]
    · simp [kerasOnEpochEnd, hf] at h

/-- Witness for C3 at a concrete state that enters the menu, and a concrete
Keras epoch end with the flag set. -/
theorem C3_checkpoint_on_every_menu_exit_witness :
    ((step (step ⟨true, 3, 0, PC.check, wStatus, Params.empty⟩ false).1
        false).2.filter (fun e => decide (e ≠ Ev.ack)) = [] ∧
     (step (step (step ⟨true, 3, 0, PC.check, wStatus, Params.empty⟩
        false).1 false).1 false).2.filter
          (fun e => decide (e ≠ Ev.ack)) = [Ev.save] ∧
     (step (step (step ⟨true, 3, 0, PC.check, wStatus, Params.empty⟩
        false).1 false).1 false).1.pc = PC.runTrain) ∧
    (kerasOnEpochEnd ⟨true, 3, 0, PC.loopGuard, wStatus, Params.empty⟩).2
      = [Ev.updateEpoch, Ev.menu, Ev.updateMenu, Ev.save] :=
  ⟨C3_checkpoint_on_every_menu_exit.1
      ⟨true, 3, 0, PC.check, wStatus, Params.empty⟩ false false false (by decide),
   C3_checkpoint_on_every_menu_exit.2
      ⟨true, 3, 0, PC.loopGuard, wStatus, Params.empty⟩ (by decide)⟩

/-- C4: on the transition into the menu the flag is cleared and the main menu
is shown: from the safe point with the flag set, the step emits exactly the
menu event and within two steps the flag reads false (even if another
interrupt fires during the menu, matching the source, where the handler
returns early while `__enter_menu` is still true); and with the flag clear,
no menu event ever occurs absent a new interrupt.  The Keras epoch end
likewise clears the flag when it shows the menu and shows no menu when the
flag is clear. -/
theorem C4_flag_cleared_on_menu_entry :
    (∀ (s : ExpState) (i1 i2 : Bool), s.pc = PC.check → s.enterMenu = true →
        (step s i1).2 = [Ev.menu] ∧
        (step (step s i1).1 i2).1.enterMenu = false) ∧
    (∀ (s : ExpState) (sched : List Bool), s.enterMenu = false →
        (∀ b ∈ sched, b = false) → Ev.menu ∉ (run s sched).2) ∧
    (∀ s : ExpState, s.enterMenu = true →
        (kerasOnEpochEnd s).1.enterMenu = false ∧
        Ev.menu ∈ (kerasOnEpochEnd s).2) ∧
    (∀ s : ExpState, s.enterMenu = false →
        Ev.menu ∉ (kerasOnEpochEnd s).2) := by
  refine ⟨?_, ?_, ?_, ?_⟩
  · intro s i1 i2 hpc hflag
    obtain ⟨flag, N, i, pc, st, pr⟩ := s
    simp only at hpc hflag
    subst hpc
    subst hflag
    cases i1 <;> cases i2 <;> simp [step, stepAction, handleSignal]
  · intro s sched hf hb
    exact (run_no_interrupt_no_menu sched s hf hb).1
  · intro s hf
    simp [kerasOnEpochEnd, hf]
  · intro s hf
    simp [kerasOnEpochEnd, hf]

/-- Witness for C4 at concrete states: menu entry from the safe point with
the flag set, a concrete all-false schedule from a flag-clear state, and the
Keras epoch end with the flag set and clear. -/
theorem C4_flag_cleared_on_menu_entry_witness :
    ((step ⟨true, 3, 0, PC.check, wStatus, Params.empty⟩ false).2 = [Ev.menu] ∧
     (step (step ⟨true, 3, 0, PC.check, wStatus, Params.empty⟩ false).1
        false).1.enterMenu = false) ∧
    Ev.menu ∉ (run ⟨false, 3, 0, PC.loopGuard, wStatus, Params.empty⟩
        [false, false, false]).2 ∧
    ((kerasOnEpochEnd ⟨true, 3, 0, PC.loopGuard, wStatus,
        Params.empty⟩).1.enterMenu = false ∧
     Ev.menu ∈ (kerasOnEpochEnd ⟨true, 3, 0, PC.loopGuard, wStatus,
        Params.empty⟩).2) ∧
    Ev.menu ∉ (kerasOnEpochEnd ⟨false, 3, 0, PC.loopGuard, wStatus,
        Params.empty⟩).2 :=
  ⟨C4_flag_cleared_on_menu_entry.1
      ⟨true, 3, 0, PC.check, wStatus, Params.empty⟩ false false rfl rfl,
   C4_flag_cleared_on_menu_entry.2.1
      ⟨false, 3, 0, PC.loopGuard, wStatus, Params.empty⟩
      [false, false, false] rfl (by decide),
   C4_flag_cleared_on_menu_entry.2.2.1
      ⟨true, 3, 0, PC.loopGuard, wStatus, Params.empty⟩ rfl,
   C4_flag_cleared_on_menu_entry.2.2.2
      ⟨false, 3, 0, PC.loopGuard, wStatus, Params.empty⟩ rfl⟩

/-- C5: the signal handler's only effects are setting the enter-menu flag and
(at most) emitting the acknowledgment notice: it leaves the hyperparameter
and status stores, the program point, the loop index and the configured
interval unchanged, and emits no menu, save, load, training or testing event.
It is a total function, so the model has no failure path.  The same holds for
the Keras handler, whose source is the same logic. -/
theorem C5_signal_handler_frame :
    (∀ s : ExpState,
        (handleSignal s).1.enterMenu = true ∧
        (handleSignal s).1.status = s.status ∧
        (handleSignal s).1.params = s.params ∧
        (handleSignal s).1.pc = s.pc ∧
        (handleSignal s).1.i = s.i ∧
        (handleSignal s).1.testingInterval = s.testingInterval ∧
        ((handleSignal s).2 = [] ∨ (handleSignal s).2 = [Ev.ack]) ∧
        (∀ e ∈ (handleSignal s).2, e = Ev.ack)) ∧
    (∀ s : ExpState,
        (kerasHandleSignal s).1.enterMenu = true ∧
        (kerasHandleSignal s).1.status = s.status ∧
        (kerasHandleSignal s).1.params = s.params ∧
        (kerasHandleSignal s).1.pc = s.pc ∧
        (kerasHandleSignal s).1.i = s.i ∧
        (kerasHandleSignal s).1.testingInterval = s.testingInterval ∧
        (∀ e ∈ (kerasHandleSignal s).2, e = Ev.ack)) := by
  constructor <;> intro s <;> by_cases hf : s.enterMenu <;>
    simp [handleSignal, kerasHandleSignal, hf]

/-- Witness for C5: the full frame condition evaluated at a concrete state
with the flag clear. -/
theorem C5_signal_handler_frame_witness :
    (handleSignal ⟨false, 3, 0, PC.runTrain, wStatus, Params.empty⟩).1.enterMenu
        = true ∧
    (handleSignal ⟨false, 3, 0, PC.runTrain, wStatus, Params.empty⟩).1.status
        = wStatus ∧
    (handleSignal ⟨false, 3, 0, PC.runTrain, wStatus, Params.empty⟩).1.params
        = Params.empty ∧
    (handleSignal ⟨false, 3, 0, PC.runTrain, wStatus, Params.empty⟩).1.pc
        = PC.runTrain ∧
    (handleSignal ⟨false, 3, 0, PC.runTrain, wStatus, Params.empty⟩).1.i = 0 ∧
    (handleSignal ⟨false, 3, 0, PC.runTrain, wStatus,
        Params.empty⟩).1.testingInterval = 3 ∧
    ((handleSignal ⟨false, 3, 0, PC.runTrain, wStatus, Params.empty⟩).2 = [] ∨
     (handleSignal ⟨false, 3, 0, PC.runTrain, wStatus, Params.empty⟩).2
        = [Ev.ack]) ∧
    (∀ e ∈ (handleSignal ⟨false, 3, 0, PC.runTrain, wStatus,
        Params.empty⟩).2, e = Ev.ack) :=
  C5_signal_handler_frame.1 ⟨false, 3, 0, PC.runTrain, wStatus, Params.empty⟩

/-- C6: at construction, the load-decision screen is shown exactly when the
model-exists predicate holds, and the load collaborator is invoked exactly
when the predicate holds and `should_load()` then returns true. -/
theorem C6_startup_load_decision :
    ∀ (me sl : Bool) (lm : String → Except String Unit) (f : String),
      (Ev.loadMenu ∈ (initLoadPhase me sl lm f).2 ↔ me = true) ∧
      (Ev.load ∈ (initLoadPhase me sl lm f).2 ↔ (me = true ∧ sl = true)) := by
  intro me sl lm f
  cases me <;> cases sl <;> simp [initLoadPhase]

/-- Witness for C6: the load phase evaluated with an existing model and a
confirming operator. -/
theorem C6_startup_load_decision_witness :
    (Ev.loadMenu ∈ (initLoadPhase true true default_load_model
        "experiment.rhp").2 ↔ true = true) ∧
    (Ev.load ∈ (initLoadPhase true true default_load_model
        "experiment.rhp").2 ↔ (true = true ∧ true = true)) :=
  C6_startup_load_decision true true default_load_model "experiment.rhp"

/-- C9: the default `_load_model` always raises at the call site, the default
`_save_model` is a no-op; construction succeeds exactly when no load is
attempted (so a subclass implementing neither can construct when no prior
checkpoint exists, or when the operator declines loading), and the training
loop itself never invokes the load collaborator. -/
theorem C9_default_load_raises_save_noop :
    (∀ f : String, default_load_model f
        = Except.error "_load_model() must be implemented by subclass.") ∧
    (∀ f : String, default_save_model f = Except.ok ()) ∧
    (∀ (me sl : Bool) (f : String),
        (initLoadPhase me sl default_load_model f).1 = Except.ok ()
          ↔ ¬(me = true ∧ sl = true)) ∧
    (∀ (s : ExpState) (sched : List Bool), Ev.load ∉ (run s sched).2) := by
  refine ⟨fun f => rfl, fun f => rfl, ?_, fun s sched => run_no_load sched s⟩
  intro me sl f
  cases me <;> cases sl <;> simp [initLoadPhase, default_load_model]

/-- Witness for C9: the default persistence callbacks and the load phase
evaluated at concrete inputs, and a concrete run that emits no load event. -/
theorem C9_default_load_raises_save_noop_witness :
    default_load_model "experiment.rhp"
        = Except.error "_load_model() must be implemented by subclass." ∧
    default_save_model "experiment.rhp" = Except.ok () ∧
    ((initLoadPhase true true default_load_model "experiment.rhp").1
        = Except.ok () ↔ ¬(true = true ∧ true = true)) ∧
    Ev.load ∉ (run ⟨false, 3, 0, PC.loopGuard, wStatus, Params.empty⟩
        [false, false, false]).2 :=
  ⟨C9_default_load_raises_save_noop.1 "experiment.rhp",
   C9_default_load_raises_save_noop.2.1 "experiment.rhp",
   C9_default_load_raises_save_noop.2.2.1 true true "experiment.rhp",
   C9_default_load_raises_save_noop.2.2.2
      ⟨false, 3, 0, PC.loopGuard, wStatus, Params.empty⟩ [false, false, false]⟩

/-- C10: `KerasExperiment.train` performs exactly one training step and
returns, its `_run_testing_step` performs no action, and no Keras framework
code emits the status-counter increment — in contrast, the `Experiment.train`
increment action does emit it.  The Keras epoch end and handler also leave
the status store unchanged. -/
theorem C10_keras_train_single_step :
    kerasTrain = [Ev.trainStep] ∧
    kerasRunTestingStep = ([] : List Ev) ∧
    (∀ s : ExpState, Ev.incrIter ∉ (kerasOnEpochEnd s).2 ∧
        (kerasOnEpochEnd s).1.status = s.status) ∧
    (∀ s : ExpState, Ev.incrIter ∉ (kerasHandleSignal s).2 ∧
        (kerasHandleSignal s).1.status = s.status) ∧
    Ev.incrIter ∉ kerasTrain ∧
    (∀ (s : ExpState) (n : Int) (st2 : Status),
        s.pc = PC.incr → s.status.get_value "iterations" = Except.ok n →
        s.status.update "iterations" (n + 1) = Except.ok st2 →
        (stepAction s).2 = [Ev.incrIter]) := by
  refine ⟨rfl, rfl, ?_, ?_, by simp [kerasTrain], ?_⟩
  · intro s
    by_cases hf : s.enterMenu <;> simp [kerasOnEpochEnd, hf]
  · intro s
    by_cases hf : s.enterMenu <;> simp [kerasHandleSignal, hf]
  · intro s n st2 hpc hg hu
    simp [stepAction, hpc, hg, hu]

/-- Witness for C10: the contrast conjunct evaluated at a concrete state of
the `Experiment` loop about to run the counter update. -/
theorem C10_keras_train_single_step_witness :
    (stepAction ⟨false, 3, 0, PC.incr, wStatus, Params.empty⟩).2
      = [Ev.incrIter] :=
  C10_keras_train_single_step.2.2.2.2.2
    ⟨false, 3, 0, PC.incr, wStatus, Params.empty⟩ 0
    ⟨3, [⟨"iterations", 1, [0, 1]⟩], ["iterations"]⟩ rfl rfl rfl

/-! ### One pass of the training loop -/

theorem pass_aux (d : Nat) :
    ∀ (N i : Nat) (st : Status) (pr : Params) (m : Int),
      i + d = N → st.get_value "iterations" = Except.ok m →
      ∃ st2 : Status,
        run ⟨false, N, i, PC.loopGuard, st, pr⟩ (List.replicate (4*d+3) false)
          = (⟨false, N, 0, PC.loopGuard, st2, pr⟩,
             (List.replicate d [Ev.trainIter, Ev.incrIter]).flatten
               ++ [Ev.testIter, Ev.save]) ∧
        st2.get_value "iterations" = Except.ok (m + d) := by
  induction d with
  | zero =>
      intro N i st pr m hi hm
      refine ⟨st, ?_, by simpa using hm⟩
      have hge : ¬ (i < N) := by omega
      rw [show List.replicate (4*0+3) false = [false, false, false] from rfl]
      simp [run, step, stepAction, hge]
  | succ d ih =>
      intro N i st pr m hi hm
      have hlt : i < N := by omega
      obtain ⟨st1, hupd, hget1⟩ := Status.update_get st "iterations" m (m+1) hm
      obtain ⟨st2, hrun, hget2⟩ := ih N (i+1) st1 pr (m+1) (by omega) hget1
      refine ⟨st2, ?_, ?_⟩
      · have hrep : List.replicate (4*(d+1)+3) false
            = false :: false :: false :: false :: List.replicate (4*d+3) false := by
          have h43 : 4*(d+1)+3 = (4*d+3)+1+1+1+1 := by omega
          rw [h43]
          simp only [List.replicate_succ]
        have e1 : step ⟨false, N, i, PC.loopGuard, st, pr⟩ false
            = (⟨false, N, i, PC.check, st, pr⟩, ([] : List Ev)) := by
          simp [step, stepAction, hlt]
        have e2 : step ⟨false, N, i, PC.check, st, pr⟩ false
            = (⟨false, N, i, PC.runTrain, st, pr⟩, ([] : List Ev)) := by
          simp [step, stepAction]
        have e3 : step ⟨false, N, i, PC.runTrain, st, pr⟩ false
            = (⟨false, N, i, PC.incr, st, pr⟩, [Ev.trainIter]) := by
          simp [step, stepAction]
        have e4 : step ⟨false, N, i, PC.incr, st, pr⟩ false
            = (⟨false, N, i+1, PC.loopGuard, st1, pr⟩, [Ev.incrIter]) := by
          simp [step, stepAction, hm, hupd]
        rw [hrep]
        obtain ⟨L, hL⟩ : ∃ L, List.replicate (4*d+3) false = L := ⟨_, rfl⟩
        rw [hL] at hrun ⊢
        simp only [run, e1, e2, e3, e4]
        rw [hrun]
        simp [List.replicate_succ, List.append_assoc]
      · have hcast : m + 1 + (d : Int) = m + ((d : Nat) + 1 : Nat) := by
          push_cast
          ring
        rw [← hcast]
        exact hget2

theorem next3 (N : Nat) (st : Status) (pr : Params) (h : 0 < N) :
    (run ⟨false, N, 0, PC.loopGuard, st, pr⟩ (List.replicate 3 false)).2
      = [Ev.trainIter] := by
  rw [show List.replicate 3 false = [false, false, false] from rfl]
  simp [run, step, stepAction, h]

theorem menu_prefix6 (N i : Nat) (st : Status) (pr : Params) (m : Int)
    (hlt : i < N) (hm : st.get_value "iterations" = Except.ok m) :
    ∃ st1 : Status,
      run ⟨true, N, i, PC.loopGuard, st, pr⟩ (List.replicate 6 false)
        = (⟨false, N, i+1, PC.loopGuard, st1, pr⟩,
           [Ev.menu, Ev.save, Ev.trainIter, Ev.incrIter]) ∧
      st1.get_value "iterations" = Except.ok (m + 1) := by
  obtain ⟨st1, hupd, hget1⟩ := Status.update_get st "iterations" m (m+1) hm
  refine ⟨st1, ?_, hget1⟩
  have e1 : step ⟨true, N, i, PC.loopGuard, st, pr⟩ false
      = (⟨true, N, i, PC.check, st, pr⟩, ([] : List Ev)) := by
    simp [step, stepAction, hlt]
  have e2 : step ⟨true, N, i, PC.check, st, pr⟩ false
      = (⟨true, N, i, PC.clearFlag, st, pr⟩, [Ev.menu]) := by
    simp [step, stepAction]
  have e3 : step ⟨true, N, i, PC.clearFlag, st, pr⟩ false
      = (⟨false, N, i, PC.saveAfterMenu, st, pr⟩, ([] : List Ev)) := by
    simp [step, stepAction]
  have e4 : step ⟨false, N, i, PC.saveAfterMenu, st, pr⟩ false
      = (⟨false, N, i, PC.runTrain, st, pr⟩, [Ev.save]) := by
    simp [step, stepAction]
  have e5 : step ⟨false, N, i, PC.runTrain, st, pr⟩ false
      = (⟨false, N, i, PC.incr, st, pr⟩, [Ev.trainIter]) := by
    simp [step, stepAction]
  have e6 : step ⟨false, N, i, PC.incr, st, pr⟩ false
      = (⟨false, N, i+1, PC.loopGuard, st1, pr⟩, [Ev.incrIter]) := by
    simp [step, stepAction, hm, hupd]
  rw [show List.replicate 6 false
      = [false, false, false, false, false, false] from rfl]
  simp [run, e1, e2, e3, e4, e5, e6]

/-- C2: with `testing_interval = N ≥ 1` and a freshly constructed
`Experiment`, one pass of `train()` (no interrupts) runs exactly `N` training
iterations, each followed by the counter increment, then exactly one testing
step and exactly one checkpoint before the `(N+1)`-th training iteration
begins, at which point the `"iterations"` status parameter equals `N`.  The
same window — exactly one testing step and one checkpoint between the `N`-th
and `(N+1)`-th training iterations — also holds when the pass entered the
menu at its first safe point, so the end-of-pass checkpoint is unconditional. -/
theorem C2_training_pass_shape (N H : Nat) (hN : 1 ≤ N) :
    (run (initState N H false) (List.replicate (4*N+6) false)).2
      = (List.replicate N [Ev.trainIter, Ev.incrIter]).flatten
          ++ [Ev.testIter, Ev.save, Ev.trainIter] ∧
    (run (initState N H false)
        (List.replicate (4*N+3) false)).1.status.get_value "iterations"
      = Except.ok (N : Int) ∧
    (run (initState N H true) (List.replicate (4*N+8) false)).2
      = [Ev.menu, Ev.save]
          ++ (List.replicate N [Ev.trainIter, Ev.incrIter]).flatten
          ++ [Ev.testIter, Ev.save, Ev.trainIter] := by
  have hm0 : ((Status.empty H).add_if_not_set "iterations" 0).get_value
      "iterations" = Except.ok 0 := rfl
  obtain ⟨st2, hrun, hget2⟩ :=
    pass_aux N N 0 ((Status.empty H).add_if_not_set "iterations" 0)
      Params.empty 0 (by omega) hm0
  refine ⟨?_, ?_, ?_⟩
  · have hsplit : List.replicate (4*N+6) false
        = List.replicate (4*N+3) false ++ List.replicate 3 false := by
      have h63 : 4*N+6 = (4*N+3)+3 := by omega
      rw [h63, List.replicate_add]
    rw [show initState N H false
        = ⟨false, N, 0, PC.loopGuard,
           (Status.empty H).add_if_not_set "iterations" 0, Params.empty⟩
        from rfl]
    rw [hsplit, run_append, hrun]
    rw [show ((⟨false, N, 0, PC.loopGuard, st2, Params.empty⟩ : ExpState),
        (List.replicate N [Ev.trainIter, Ev.incrIter]).flatten
          ++ [Ev.testIter, Ev.save]).2
        = (List.replicate N [Ev.trainIter, Ev.incrIter]).flatten
          ++ [Ev.testIter, Ev.save] from rfl]
    rw [show ((⟨false, N, 0, PC.loopGuard, st2, Params.empty⟩ : ExpState),
        (List.replicate N [Ev.trainIter, Ev.incrIter]).flatten
          ++ [Ev.testIter, Ev.save]).1
        = (⟨false, N, 0, PC.loopGuard, st2, Params.empty⟩ : ExpState) from rfl]
    rw [next3 N st2 Params.empty (by omega)]
    simp [List.append_assoc]
  · rw [show initState N H false
        = ⟨false, N, 0, PC.loopGuard,
           (Status.empty H).add_if_not_set "iterations" 0, Params.empty⟩
        from rfl]
    rw [hrun]
    simpa using hget2
  · obtain ⟨d, rfl⟩ : ∃ d, N = d + 1 := ⟨N - 1, by omega⟩
    obtain ⟨st1, hrun6, hget1⟩ :=
      menu_prefix6 (d+1) 0 ((Status.empty H).add_if_not_set "iterations" 0)
        Params.empty 0 (by omega) hm0
    obtain ⟨st2b, hrunp, hget2b⟩ :=
      pass_aux d (d+1) 1 st1 Params.empty 1 (by omega) hget1
    have h3 := next3 (d+1) st2b Params.empty (by omega)
    have hsplit2 : List.replicate (4*(d+1)+8) false
        = List.replicate 6 false
            ++ (List.replicate (4*d+3) false ++ List.replicate 3 false) := by
      have h68 : 4*(d+1)+8 = 6 + ((4*d+3) + 3) := by omega
      rw [h68, List.replicate_add, List.replicate_add]
    rw [show initState (d+1) H true
        = ⟨true, d+1, 0, PC.loopGuard,
           (Status.empty H).add_if_not_set "iterations" 0, Params.empty⟩
        from rfl]
    rw [hsplit2, run_append, hrun6]
    simp only [run_append, Nat.zero_add]
    simp only [hrunp]
    simp only [h3]
    simp [List.replicate_succ, List.append_assoc]

/-- Witness for C2 at the spec scenario `testing_interval = 3`. -/
theorem C2_training_pass_shape_witness :
    (run (initState 3 3 false) (List.replicate (4*3+6) false)).2
      = (List.replicate 3 [Ev.trainIter, Ev.incrIter]).flatten
          ++ [Ev.testIter, Ev.save, Ev.trainIter] ∧
    (run (initState 3 3 false)
        (List.replicate (4*3+3) false)).1.status.get_value "iterations"
      = Except.ok (3 : Int) ∧
    (run (initState 3 3 true) (List.replicate (4*3+8) false)).2
      = [Ev.menu, Ev.save]
          ++ (List.replicate 3 [Ev.trainIter, Ev.incrIter]).flatten
          ++ [Ev.testIter, Ev.save, Ev.trainIter] :=
  C2_training_pass_shape 3 3 (by decide)

/-! ### Claims about the parameter store -/

theorem mem_markChanged (c : List String) (n x : String) :
    x ∈ markChanged c n ↔ (x ∈ c ∨ x = n) := by
  unfold markChanged
  by_cases h : n ∈ c
  · rw [if_pos h]
    constructor
    · exact Or.inl
    · rintro (hx | rfl)
      · exact hx
      · exact h
  · rw [if_neg h]
    simp

theorem find?_map_setP (n : String) (v : Int) :
    ∀ (l : List (String × Int)) (e : String × Int),
      l.find? (fun e2 => e2.1 == n) = some e →
      (l.map (fun e2 => if e2.1 == n then (e2.1, v) else e2)).find?
          (fun e2 => e2.1 == n) = some (e.1, v) := by
  intro l
  induction l with
  | nil => intro e hf; simp [List.find?] at hf
  | cons hd tl ih =>
      intro e hf
      cases hh : hd.1 == n with
      | true =>
          simp only [List.find?_cons, hh] at hf
          obtain rfl : hd = e := by
            cases hf
            rfl
          rw [List.map_cons, if_pos hh, List.find?_cons]
          simp [hh]
      | false =>
          simp only [List.find?_cons, hh] at hf
          rw [List.map_cons, if_neg (by simp [hh]), List.find?_cons, hh]
          exact ih e hf

theorem Params.update_overwrites (p : Params) (n : String) (m v : Int)
    (h : p.get_value n = Except.ok m) :
    ∃ p2 : Params, p.update n v = Except.ok p2 ∧
      p2.get_value n = Except.ok v ∧
      (n ∈ p2.changed ↔ (n ∈ p.changed ∨ m ≠ v)) := by
  rcases hf : p.entries.find? (fun e => e.1 == n) with _ | e
  · unfold Params.get_value at h
    rw [hf] at h
    cases h
  · have hev : e.2 = m := by
      unfold Params.get_value at h
      rw [hf] at h
      cases h
      rfl
    have hupd : p.update n v = Except.ok
        { entries := p.entries.map (fun e2 => if e2.1 == n then (e2.1, v) else e2),
          changed := if e.2 == v then p.changed
                     else markChanged p.changed n } := by
      unfold Params.update
      rw [hf]
    refine ⟨_, hupd, ?_, ?_⟩
    · simp only [Params.get_value]
      rw [find?_map_setP n v p.entries e hf]
    · subst hev
      by_cases hmv : e.2 = v
      · have hb : (e.2 == v) = true := by simpa using hmv
        simp [hb, hmv]
      · have hb : ¬ ((e.2 == v) = true) := by simpa using hmv
        simp [if_neg hb, mem_markChanged, hmv]

/-- C7 counterexample: `update` with a value equal to the stored one does not
mark the parameter dirty.  After adding `"p" = 1`, clearing the dirty set via
`get_changed`, and calling `update "p" 1`, the claim as stated predicts the
next `get_changed` returns `["p"]`; the store returns `[]` (pinned by
`test_get_changed`, lines 115-119). -/
theorem C7_counterexample :
    ((((Params.empty.addD "p" 1).get_changed).2.updateD "p" 1).get_changed).1
      = ([] : List String) ∧
    "p" ∉ ((((Params.empty.addD "p" 1).get_changed).2.updateD "p"
        1).get_changed).1 := by
  constructor
  · rfl
  · intro h
    simp only [show ((((Params.empty.addD "p" 1).get_changed).2.updateD "p"
        1).get_changed).1 = ([] : List String) from rfl] at h
    cases h

/-- C7 (amended): for every store and existing name, `update` overwrites the
current value; it marks the name dirty exactly when the written value differs
from the stored one (or the name was already dirty); and `get_changed`
returns exactly the dirty set and clears it, so a second call with no
intervening mutation returns the empty set. -/
theorem C7_update_overwrite_dirty_clear :
    (∀ (p : Params) (n : String) (m v : Int),
        p.get_value n = Except.ok m →
        ∃ p2 : Params, p.update n v = Except.ok p2 ∧
          p2.get_value n = Except.ok v ∧
          (n ∈ p2.changed ↔ (n ∈ p.changed ∨ m ≠ v))) ∧
    (∀ p : Params, p.get_changed.1 = p.changed ∧
        ((p.get_changed.2).get_changed).1 = []) :=
  ⟨fun p n m v h => Params.update_overwrites p n m v h, fun p => ⟨rfl, rfl⟩⟩

/-- Witness for C7 at a concrete store holding `"p" = 1`. -/
theorem C7_update_overwrite_dirty_clear_witness :
    (∃ p2 : Params, (⟨[("p", 1)], []⟩ : Params).update "p" 2 = Except.ok p2 ∧
        p2.get_value "p" = Except.ok 2 ∧
        ("p" ∈ p2.changed ↔ ("p" ∈ ([] : List String) ∨ (1 : Int) ≠ 2))) ∧
    ((⟨[("p", 1)], ["p"]⟩ : Params).get_changed.1 = ["p"] ∧
        (((⟨[("p", 1)], ["p"]⟩ : Params).get_changed.2).get_changed).1 = []) :=
  ⟨C7_update_overwrite_dirty_clear.1 ⟨[("p", 1)], []⟩ "p" 1 2 rfl,
   C7_update_overwrite_dirty_clear.2 ⟨[("p", 1)], ["p"]⟩⟩

theorem lastN_length_le (k : Nat) (xs : List Int) : (lastN k xs).length ≤ k := by
  unfold lastN
  rw [List.length_drop]
  omega

theorem lastN_concat_getLast (k : Nat) (hk : 1 ≤ k) (xs : List Int) (v : Int) :
    (lastN k (xs ++ [v])).getLast? = some v := by
  unfold lastN
  have hlen : (xs ++ [v]).length = xs.length + 1 := by simp
  rw [hlen]
  have hle : xs.length + 1 - k ≤ xs.length := by omega
  rw [List.drop_append_of_le_length hle, List.getLast?_concat]

theorem Status.WF_add (st : Status) (n : String) (v : Int) (st2 : Status)
    (hwf : st.WF) (h : st.add n v = Except.ok st2) : st2.WF := by
  unfold Status.add at h
  by_cases hmem : st.mem_name n
  · rw [if_pos hmem] at h
    cases h
  · rw [if_neg hmem] at h
    injection h with h
    subst h
    refine ⟨hwf.1, ?_⟩
    intro e2 he2
    rcases List.mem_append.1 he2 with h2 | h2
    · exact hwf.2 e2 h2
    · simp only [List.mem_singleton] at h2
      subst h2
      exact ⟨by simpa using hwf.1, rfl⟩

theorem Status.WF_add_if_not_set (st : Status) (n : String) (v : Int)
    (hwf : st.WF) : (st.add_if_not_set n v).WF := by
  unfold Status.add_if_not_set
  by_cases hmem : st.mem_name n
  · rw [if_pos hmem]
    exact hwf
  · rw [if_neg hmem]
    refine ⟨hwf.1, ?_⟩
    intro e2 he2
    rcases List.mem_append.1 he2 with h2 | h2
    · exact hwf.2 e2 h2
    · simp only [List.mem_singleton] at h2
      subst h2
      exact ⟨by simpa using hwf.1, rfl⟩

theorem Status.WF_update (st : Status) (n : String) (v : Int) (st2 : Status)
    (hwf : st.WF) (h : st.update n v = Except.ok st2) : st2.WF := by
  rcases hf : st.entries.find? (fun e => e.name == n) with _ | e
  · unfold Status.update at h
    rw [hf] at h
    cases h
  · unfold Status.update at h
    rw [hf] at h
    injection h with h
    subst h
    refine ⟨hwf.1, ?_⟩
    intro e2 he2
    obtain ⟨e3, he3, rfl⟩ := List.mem_map.1 he2
    cases hh : e3.name == n with
    | true =>
        rw [if_pos rfl]
        exact ⟨lastN_length_le _ _, lastN_concat_getLast _ hwf.1 _ _⟩
    | false =>
        rw [if_neg (by simp)]
        exact hwf.2 e3 he3

/-- C8 counterexample: the sub-claim "only update appends to history" fails
on the store — `add` itself seeds the history with the initial value: after
`add "loss" 1` with no updates, `get_history` returns `[1]`, not the empty
history the sub-claim implies (pinned by `test_get_history`, whose expected
history `[0, 1, 2, 3]` includes the added value `0`). -/
theorem C8_counterexample :
    Status.get_history ((Status.empty 3).addD "loss" 1) "loss"
      = Except.ok [1] ∧
    ([1] : List Int) ≠ ([] : List Int) := by
  exact ⟨rfl, by simp⟩

/-- C8 (amended): histories are bounded and track the current value — for
every well-formed status store, `add`, `add_if_not_set` and `update` preserve
the invariant that no history exceeds `_MAX_HISTORY_LEN` entries and the most
recent history entry is the current value; `add` seeds the history with the
initial value and `update` appends, evicting the oldest entries, so with
bound 3 the spec scenario `add "loss" 1; update 2, 3, 4` yields history
`[2, 3, 4]` with the initial value evicted. -/
theorem C8_history_bounded_latest :
    (∀ (st : Status) (n : String) (v : Int) (st2 : Status),
        st.WF → st.add n v = Except.ok st2 → st2.WF) ∧
    (∀ (st : Status) (n : String) (v : Int),
        st.WF → (st.add_if_not_set n v).WF) ∧
    (∀ (st : Status) (n : String) (v : Int) (st2 : Status),
        st.WF → st.update n v = Except.ok st2 → st2.WF) ∧
    Status.get_history
        (((((Status.empty 3).addD "loss" 1).updateD "loss" 2).updateD "loss"
            3).updateD "loss" 4) "loss"
      = Except.ok [2, 3, 4] :=
  ⟨fun st n v st2 hwf h => Status.WF_add st n v st2 hwf h,
   fun st n v hwf => Status.WF_add_if_not_set st n v hwf,
   fun st n v st2 hwf h => Status.WF_update st n v st2 hwf h,
   rfl⟩

/-- Witness for C8 at concrete stores with bound 3. -/
theorem C8_history_bounded_latest_witness :
    Status.WF ⟨3, [⟨"a", 5, [5]⟩], ["a"]⟩ ∧
    Status.WF ((⟨3, [⟨"a", 5, [5]⟩], ["a"]⟩ : Status).add_if_not_set "a" 6) ∧
    Status.WF ⟨3, [⟨"a", 6, [5, 6]⟩], ["a"]⟩ :=
  ⟨C8_history_bounded_latest.1 (Status.empty 3) "a" 5
      ⟨3, [⟨"a", 5, [5]⟩], ["a"]⟩ (by decide) rfl,
   C8_history_bounded_latest.2.1 ⟨3, [⟨"a", 5, [5]⟩], ["a"]⟩ "a" 6 (by decide),
   C8_history_bounded_latest.2.2.1 ⟨3, [⟨"a", 5, [5]⟩], ["a"]⟩ "a" 6
      ⟨3, [⟨"a", 6, [5, 6]⟩], ["a"]⟩ (by decide) rfl⟩
